import Mathlib

/-!
Shallow embedding of `nt/database/iterator.py`: the composable sequence-view
family (`ExamplesIterator`, `MapIterator`, `FilterIterator`, `ShuffleIterator`,
`ReShuffleIterator`, `SliceIterator`, `ConcatenateIterator`), the enricher
predicate `remove_examples_without_alignment`, and a small heap model used to
state the deep-copy isolation property of example access.

Python values are modelled by the inductive `Value`; Python exceptions by
`Err`; fallible operations return `Except Err _`.  Positions are `Int` with
Python's negative-index wrap-around.  An `__getitem__` that falls off the end
of a function body (returning `None`) is modelled as `.ok .noneV`.
-/

set_option maxRecDepth 4000

/-- Python-like dynamic values.  An example dict is a `dictV` whose entry list
keeps the dict's insertion order. -/
inductive Value where
| noneV : Value
| intV : Int → Value
| strV : String → Value
| listV : List Value → Value
| dictV : List (String × Value) → Value

/-- Python exception classes raised by the code under study. -/
inductive Err where
| indexError : Err
| keyError : Err
| typeError : Err
| notImplementedError : Err
| assertionError : Err
deriving DecidableEq

mutual

/-- Python `==` on values (deep structural equality). -/
def vbeq : Value → Value → Bool
| .noneV, .noneV => true
| .intV a, .intV b => a == b
| .strV a, .strV b => a == b
| .listV a, .listV b => vbeqL a b
| .dictV a, .dictV b => vbeqD a b
| _, _ => false

/-- Python `==` on lists of values. -/
def vbeqL : List Value → List Value → Bool
| [], [] => true
| x :: xs, y :: ys => vbeq x y && vbeqL xs ys
| _, _ => false

/-- Python `==` on dict entry lists. -/
def vbeqD : List (String × Value) → List (String × Value) → Bool
| [], [] => true
| (kx, x) :: xs, (ky, y) :: ys => kx == ky && vbeq x y && vbeqD xs ys
| _, _ => false

end

/-- Modelled from the spec: the reserved example-id field name provided by the
module `nt.database.keys`, which is not among the given sources; the spec
lists the reserved fields example-id, alignment, alignment-frame-count,
sample-count and the observation-modality name. -/
def keys.EXAMPLE_ID : String := "example_id"

/-- Modelled from the spec: reserved alignment field name (see
`keys.EXAMPLE_ID`). -/
def keys.ALIGNMENT : String := "alignment"

/-- Modelled from the spec: reserved alignment-frame-count field name (see
`keys.EXAMPLE_ID`). -/
def keys.NUM_ALIGNMENT_FRAMES : String := "num_alignment_frames"

/-- Modelled from the spec: reserved sample-count field name (see
`keys.EXAMPLE_ID`). -/
def keys.NUM_SAMPLES : String := "num_samples"

/-- Modelled from the spec: reserved observation-modality name (see
`keys.EXAMPLE_ID`). -/
def keys.OBSERVATION : String := "observation"

/-- Python sequence indexing `l[i]` with negative-index wrap-around; `none`
models an `IndexError`. -/
def pyIndex {α : Type} (l : List α) (i : Int) : Option α :=
  let j : Int := if i < 0 then i + l.length else i
  if 0 ≤ j ∧ j < l.length then l.get? j.toNat else Option.none

/-- Python dict assignment `d[k] = v`: replaces in place an existing entry for
`k` (keeping its position) or appends a new entry. -/
def dictSet : List (String × Value) → String → Value → List (String × Value)
| [], k, v => [(k, v)]
| (k', v') :: rest, k, v =>
    if k' == k then (k, v) :: rest else (k', v') :: dictSet rest k v

/-- Python item assignment `example[k] = v`: only dicts support it. -/
def setItemV : Value → String → Value → Except Err Value
| .dictV d, k, v => .ok (.dictV (dictSet d k v))
| _, _, _ => .error .typeError

/-- Python dict lookup `d[k]` as an `Option`. -/
def dictGet (d : List (String × Value)) (k : String) : Option Value :=
  List.lookup k d

/-- Python `len()` on a value; `none` models a `TypeError` for unsized
values. -/
def valueLen : Value → Option Nat
| .strV s => some s.length
| .listV l => some l.length
| .dictV d => some d.length
| _ => Option.none

/-- Python `list(x)` on a value: lists stay, strings split into characters,
dicts list their keys; other values raise `TypeError`. -/
def pyToList : Value → Except Err (List Value)
| .listV l => .ok l
| .strV s => .ok (s.data.map fun c => .strV (String.singleton c))
| .dictV d => .ok (d.map fun kv => .strV kv.1)
| _ => .error .typeError

/-- Python membership `x in c` for string needles: list membership uses `==`,
strings use the substring test, dicts test key membership. -/
def pyIn (needle : String) : Value → Except Err Bool
| .listV l => .ok (l.any (vbeq (.strV needle)))
| .strV s => .ok (decide (needle.data <:+: s.data))
| .dictV d => .ok (d.any fun kv => kv.1 == needle)
| _ => .error .typeError

/-- Python `len(l) == len(set(l))` on a list of values: true iff the list has
no duplicates under `==`. -/
def listNodupV : List Value → Bool
| [] => true
| v :: rest => !(rest.any (vbeq v)) && listNodupV rest

/-- Indexing with a numpy integer index array: `xs[arr]` where `xs` is a
Python list or string (not an ndarray).  For an array of exactly one element
the array is converted to a scalar index (numpy-1.x deprecation behaviour)
and a single element is returned; any other size raises `TypeError`.  This is
what `SliceIterator.keys` does to the upstream key list. -/
def pySeqIndexArray (xs : Value) (arr : List Nat) : Except Err Value :=
  match arr with
  | [j] =>
    match xs with
    | .listV l =>
      match l.get? j with
      | some v => .ok v
      | Option.none => .error .indexError
    | .strV s =>
      match s.data.get? j with
      | some c => .ok (.strV (String.singleton c))
      | Option.none => .error .indexError
    | _ => .error .typeError
  | _ => .error .typeError

/-- The sequence-view family of `nt/database/iterator.py`.  Each constructor
carries the state the corresponding class stores: `ExamplesIterator` its
example dict, `ShuffleIterator`/`ReShuffleIterator` their permutation array,
`SliceIterator` its resolved position array (`np.arange(len(input))[slice]`),
`ConcatenateIterator` its input list. -/
inductive Iterator where
| ExamplesIterator (examples : List (String × Value))
| MapIterator (map_function : Value → Value) (input : Iterator)
| FilterIterator (filter_function : Value → Bool) (input : Iterator)
| ShuffleIterator (permutation : List Nat) (input : Iterator)
| ReShuffleIterator (permutation : List Nat) (input : Iterator)
| SliceIterator (slice : List Nat) (input : Iterator)
| ConcatenateIterator (input_iterators : List Iterator)

/-- Key list of the stored example dict (`ExamplesIterator.keys`). -/
def exKeys (examples : List (String × Value)) : List String :=
  examples.map Prod.fst

/-- Tail of `ExamplesIterator.__getitem__` once the key is resolved:
`example = deepcopy(self.examples[key]); example[keys.EXAMPLE_ID] = key`.
On pure values a deep copy is the identity; the heap model below accounts for
the isolation it provides. -/
def exGet (examples : List (String × Value)) (key : String) : Except Err Value :=
  match List.lookup key examples with
  | some body => setItemV body keys.EXAMPLE_ID (.strV key)
  | Option.none => .error .keyError

mutual

/-- Method `__len__` of each view; `NotImplementedError` comes from the
`BaseIterator` default (e.g. for `FilterIterator`). -/
def lenF : Iterator → Except Err Nat
| .ExamplesIterator examples => .ok examples.length
| .MapIterator _ input => lenF input
| .FilterIterator _ _ => .error .notImplementedError
| .ShuffleIterator _ input => lenF input
| .ReShuffleIterator _ input => lenF input
| .SliceIterator slice _ => .ok slice.length
| .ConcatenateIterator inputs => lenFList inputs

/-- The sum `sum([len(i) for i in self.input_iterators])`. -/
def lenFList : List Iterator → Except Err Nat
| [] => .ok 0
| it :: rest => do
  let n ← lenF it
  let m ← lenFList rest
  .ok (n + m)

end

mutual

/-- Method `keys()` of each view.  The result is a `Value` because
`SliceIterator.keys` can produce a bare string (size-one index array) or
raise `TypeError`; ordinary views return a `listV` of `strV` keys. -/
def keysF : Iterator → Except Err Value
| .ExamplesIterator examples => .ok (.listV ((exKeys examples).map .strV))
| .MapIterator _ input => keysF input
| .FilterIterator _ _ => .error .notImplementedError
| .ShuffleIterator _ input => keysF input
| .ReShuffleIterator _ input => keysF input
| .SliceIterator slice input => do
  let ks ← keysF input
  pySeqIndexArray ks slice
| .ConcatenateIterator inputs => do
  let l ← keysFList inputs
  if listNodupV l then .ok (.listV l) else .error .assertionError

/-- The loop in `ConcatenateIterator.keys`:
`self._keys += list(iterator.keys())` over all inputs. -/
def keysFList : List Iterator → Except Err (List Value)
| [] => .ok []
| it :: rest => do
  let kv ← keysF it
  let l ← pyToList kv
  let r ← keysFList rest
  .ok (l ++ r)

end

mutual

/-- Method `__getitem__` with an integral argument (`get_by_position`).  A plain
`.ok .noneV` arises when `ConcatenateIterator.__getitem__` falls off the end
of its loop and implicitly returns `None`. -/
def getInt : Iterator → Int → Except Err Value
| .ExamplesIterator examples, item =>
  match pyIndex (exKeys examples) item with
  | some key => exGet examples key
  | Option.none => .error .indexError
| .MapIterator map_function input, item =>
  (getInt input item).map map_function
| .FilterIterator _ _, _ => .error .assertionError
| .ShuffleIterator permutation input, item =>
  match pyIndex permutation item with
  | some j => getInt input (j : Int)
  | Option.none => .error .indexError
| .ReShuffleIterator _ _, _ => .error .typeError
| .SliceIterator slice input, item =>
  match pyIndex slice item with
  | some j => getInt input (j : Int)
  | Option.none => .error .indexError
| .ConcatenateIterator inputs, item => concatWalk inputs item

/-- The loop in `ConcatenateIterator.__getitem__`: subtract each upstream
length until the owner is found; falling off the loop returns `None`. -/
def concatWalk : List Iterator → Int → Except Err Value
| [], _ => .ok .noneV
| it :: rest, item => do
  let n ← lenF it
  if (n : Int) ≤ item then concatWalk rest (item - n) else getInt it item

end

mutual

/-- Method `__getitem__` with a string argument (`get_by_key`). -/
def getStr : Iterator → String → Except Err Value
| .ExamplesIterator examples, item =>
  if (exKeys examples).contains item then exGet examples item
  else .error .indexError
| .MapIterator map_function input, item =>
  (getStr input item).map map_function
| .FilterIterator filter_function input, key => do
  let ex ← getStr input key
  if filter_function ex then .ok ex else .error .indexError
| .ShuffleIterator _ input, item => getStr input item
| .ReShuffleIterator _ input, item => getStr input item
| .SliceIterator slice input, key => do
  let ks ← keysF (.SliceIterator slice input)
  let b ← pyIn key ks
  if b then getStr input key else .error .indexError
| .ConcatenateIterator inputs, item => do
  let _ ← keysF (.ConcatenateIterator inputs)
  chainLookup inputs item

/-- Lookup of `collections.ChainMap.__getitem__` over the input iterators: tries each
mapping in turn, swallowing only `KeyError`; an exhausted chain raises
`KeyError` via `__missing__`. -/
def chainLookup : List Iterator → String → Except Err Value
| [], _ => .error .keyError
| it :: rest, key =>
  match getStr it key with
  | .ok v => .ok v
  | .error .keyError => chainLookup rest key
  | .error e => .error e

end

mutual

/-- One complete `__iter__` pass, materialized.  `orc` models
`np.random.shuffle`: call number `c` turns a permutation array into its
reshuffled version.  Only `ReShuffleIterator.__iter__` consumes randomness
(and mutates its stored permutation); the updated view state and call counter
are returned alongside the yielded examples.  `ShuffleIterator`,
`SliceIterator` and `ReShuffleIterator` pull from the upstream by indexing
(`self.input_iterator[idx]`), not by iterating it, so they leave the upstream
state untouched. -/
def iterOnce (orc : Nat → List Nat → List Nat) :
    Iterator → Nat → Except Err (List Value) × Iterator × Nat
| .ExamplesIterator examples, c =>
  ((exKeys examples).mapM (exGet examples), .ExamplesIterator examples, c)
| .MapIterator map_function input, c =>
  match iterOnce orc input c with
  | (r, input', c') =>
    (r.map (List.map map_function), .MapIterator map_function input', c')
| .FilterIterator filter_function input, c =>
  match iterOnce orc input c with
  | (r, input', c') =>
    (r.map (List.filter filter_function), .FilterIterator filter_function input', c')
| .ShuffleIterator permutation input, c =>
  (permutation.mapM (fun j => getInt input (j : Int)),
   .ShuffleIterator permutation input, c)
| .ReShuffleIterator permutation input, c =>
  let permutation' := orc c permutation
  (permutation'.mapM (fun j => getInt input (j : Int)),
   .ReShuffleIterator permutation' input, c + 1)
| .SliceIterator slice input, c =>
  (slice.mapM (fun j => getInt input (j : Int)), .SliceIterator slice input, c)
| .ConcatenateIterator inputs, c =>
  match iterOnceList orc inputs c with
  | (r, inputs', c') => (r, .ConcatenateIterator inputs', c')

/-- Loop of `ConcatenateIterator.__iter__`: iterate all inputs in order, threading the
reshuffle state. -/
def iterOnceList (orc : Nat → List Nat → List Nat) :
    List Iterator → Nat → Except Err (List Value) × List Iterator × Nat
| [], c => (.ok [], [], c)
| it :: rest, c =>
  match iterOnce orc it c with
  | (r, it', c') =>
    match iterOnceList orc rest c' with
    | (rs, rest', c'') =>
      ((do
          let a ← r
          let b ← rs
          pure (a ++ b)), it' :: rest', c'')

end

/-- The alignment-validity predicate `remove_examples_without_alignment`
applied to an example dict.  Python floor division `//` is `Int.fdiv`;
`np.mod` with a positive modulus is `Int.emod`. -/
def remove_examples_without_alignment
    (ex : List (String × Value)) : Except Err Bool :=
  match List.lookup keys.ALIGNMENT ex with
  | Option.none => .ok false
  | some ali =>
    match valueLen ali with
    | Option.none => .error .typeError
    | some len_ali =>
      if len_ali = 0 then .ok false
      else
        match List.lookup keys.NUM_SAMPLES ex with
        | Option.none => .ok true
        | some nsv => do
          let num_samples ← (
            match nsv with
            | .intV n => .ok n
            | .dictV d =>
              (match List.lookup keys.OBSERVATION d with
               | some (.intV n) => Except.ok n
               | some _ => Except.error .typeError
               | Option.none => Except.error .keyError)
            | _ => .error .typeError)
          let num_frames := (num_samples - 400 + 160).fdiv 160
          let num_frames_lfr :=
            (num_frames + Int.emod (-num_frames) 3).fdiv 3
          .ok (((len_ali : Int) == num_frames) ||
               ((len_ali : Int) == num_frames_lfr))

/-- Heap values: immediate scalars or a reference to a heap cell.  Used to
model Python object identity, so that `deepcopy` in
`ExamplesIterator.__getitem__` is more than the identity. -/
inductive HVal where
| hnone : HVal
| hint : Int → HVal
| hstr : String → HVal
| href : Nat → HVal
deriving DecidableEq

/-- Heap cells: mutable compound Python objects (lists and dicts). -/
inductive HObj where
| hlist : List HVal → HObj
| hdict : List (String × HVal) → HObj
deriving DecidableEq

/-- A heap is a list of cells; the address of a cell is its index and
allocation appends. -/
abbrev PyHeap := List HObj

mutual

/-- Builds a fresh object graph for a pure value: every compound node is
allocated as a new cell.  This is what `deepcopy` produces. -/
def encodeV : Value → PyHeap → HVal × PyHeap
| .noneV, h => (.hnone, h)
| .intV n, h => (.hint n, h)
| .strV s, h => (.hstr s, h)
| .listV l, h =>
  (.href (encodeL l h).2.length, (encodeL l h).2 ++ [.hlist (encodeL l h).1])
| .dictV d, h =>
  (.href (encodeD d h).2.length, (encodeD d h).2 ++ [.hdict (encodeD d h).1])

/-- Encodes list elements left to right, threading the heap. -/
def encodeL : List Value → PyHeap → List HVal × PyHeap
| [], h => ([], h)
| v :: rest, h =>
  ((encodeV v h).1 :: (encodeL rest (encodeV v h).2).1,
   (encodeL rest (encodeV v h).2).2)

/-- Encodes dict entries left to right, threading the heap. -/
def encodeD : List (String × Value) → PyHeap → List (String × HVal) × PyHeap
| [], h => ([], h)
| (k, v) :: rest, h =>
  ((k, (encodeV v h).1) :: (encodeD rest (encodeV v h).2).1,
   (encodeD rest (encodeV v h).2).2)

end

/-- Reads the pure value denoted by a heap value, following references;
`fuel` bounds the reference depth.  Compound cells are read back with
`List.mapM`, elementwise. -/
def decodeV : Nat → PyHeap → HVal → Option Value
| _, _, .hnone => some .noneV
| _, _, .hint n => some (.intV n)
| _, _, .hstr s => some (.strV s)
| 0, _, .href _ => Option.none
| fuel + 1, h, .href a =>
  match h.get? a with
  | some (.hlist l) => (l.mapM (decodeV fuel h)).map .listV
  | some (.hdict d) =>
    (d.mapM (fun kv => (decodeV fuel h kv.2).map (Prod.mk kv.1))).map .dictV
  | Option.none => Option.none

mutual

/-- Nesting depth of a pure value; decoding an encoding of `v` needs at least
`vdepth v` fuel. -/
def vdepth : Value → Nat
| .noneV => 0
| .intV _ => 0
| .strV _ => 0
| .listV l => vdepthL l + 1
| .dictV d => vdepthD d + 1

/-- Maximal depth over list elements. -/
def vdepthL : List Value → Nat
| [] => 0
| v :: rest => max (vdepth v) (vdepthL rest)

/-- Maximal depth over dict entries. -/
def vdepthD : List (String × Value) → Nat
| [] => 0
| (_, v) :: rest => max (vdepth v) (vdepthD rest)

end

/-- Two heaps agree on every address below `n`. -/
def heapAgree (n : Nat) (h h' : PyHeap) : Prop :=
  ∀ a : Nat, a < n → h.get? a = h'.get? a

/-- In-place mutation of the compound object stored at address `a`. -/
def writeHeap (h : PyHeap) (a : Nat) (o : HObj) : PyHeap :=
  h.set a o

/-- The access `ExamplesIterator.__getitem__(key)` against a heap: decode the
stored example graph, deep-copy it into fresh cells, and set the reserved id
field on the copy.  Returns the copy's root and the grown heap; `Option.none`
models a failure (exhausted fuel or a non-dict body). -/
def heapGetByKey (h : PyHeap) (root : HVal) (key : String) (fuel : Nat) :
    Option (HVal × PyHeap) :=
  match decodeV fuel h root with
  | Option.none => Option.none
  | some body =>
    match setItemV body keys.EXAMPLE_ID (.strV key) with
    | .error _ => Option.none
    | .ok ex => some (encodeV ex h)

/-- Heap extension: `h'` preserves heap `h` when it is at least as long and
keeps every cell of `h` unchanged. -/
def heapExt (h h' : PyHeap) : Prop :=
  h.length ≤ h'.length ∧ heapAgree h.length h h'

/-- The example value `ExamplesIterator.__getitem__` yields for key `k` and
stored body entries `d`: a copy of the body with the reserved id field set. -/
def stampedEx (d : List (String × Value)) (k : String) : Value :=
  .dictV (dictSet d keys.EXAMPLE_ID (.strV k))

/-- Concrete store heap for the C4 witness: one example body. -/
def c4h0 : PyHeap := (encodeV (.dictV [("f", .intV 1)]) []).2

/-- Root of the stored example in `c4h0`. -/
def c4root : HVal := (encodeV (.dictV [("f", .intV 1)]) []).1

/-- Heap after the first access (the deep copy lives at address 1). -/
def c4heap1 : PyHeap := (encodeV (stampedEx [("f", .intV 1)] "x") c4h0).2

/-- Heap after mutating the returned copy in place. -/
def c4mut : PyHeap := writeHeap c4heap1 1 (.hdict [("f", .hint 999)])

/-- First source of the C1/C3 scenario, owning keys a and b. -/
def c1srcAB : Iterator :=
  .ExamplesIterator [("a", .dictV [("v", .intV 1)]), ("b", .dictV [("v", .intV 2)])]

/-- Second source of the C1/C3 scenario, owning only key c. -/
def c1srcC : Iterator := .ExamplesIterator [("c", .dictV [("v", .intV 3)])]

/-- The concatenated view of the C1/C3 scenario. -/
def c1cat : Iterator := .ConcatenateIterator [c1srcAB, c1srcC]

/-- Upstream source of the C2 scenario, with three examples. -/
def c2src : Iterator :=
  .ExamplesIterator
    [("a", .dictV [("v", .intV 1)]), ("b", .dictV [("v", .intV 2)]),
     ("c", .dictV [("v", .intV 3)])]

/-- The slice view `c2src[[0, 1]]` (resolved position array [0, 1]). -/
def c2slice : Iterator := .SliceIterator [0, 1] c2src

/-- A predicate accepting every example; used by the C6 witness. -/
def predTrue : Value → Bool := fun _ => true

/-- A predicate rejecting every example; used by the C6 witness. -/
def predFalse : Value → Bool := fun _ => false

/-- Two-example source used to exhibit the keys-versus-iteration orders. -/
def c10src : Iterator := .ExamplesIterator [("a", .dictV []), ("b", .dictV [])]

/-- A fixed shuffle oracle (identity); static Shuffle consumes no randomness,
so its choice is irrelevant to the facts below. -/
def orcId : Nat → List Nat → List Nat := fun _ l => l

theorem heapExt_refl (h : PyHeap) : heapExt h h :=
  ⟨le_refl _, fun _ _ => rfl⟩

theorem heapExt_trans {h h' h'' : PyHeap} (a : heapExt h h') (b : heapExt h' h'') :
    heapExt h h'' :=
  ⟨le_trans a.1 b.1, fun x hx => (a.2 x hx).trans (b.2 x (lt_of_lt_of_le hx a.1))⟩

theorem heapExt_append (h : PyHeap) (t : PyHeap) : heapExt h (h ++ t) := by
  refine ⟨by simp, fun a ha => ?_⟩
  rw [List.get?_append ha]

mutual

theorem encodeV_ext : ∀ (v : Value) (h : PyHeap), heapExt h (encodeV v h).2
| .noneV, h => heapExt_refl h
| .intV _, h => heapExt_refl h
| .strV _, h => heapExt_refl h
| .listV l, h =>
  heapExt_trans (encodeL_ext l h) (heapExt_append _ _)
| .dictV d, h =>
  heapExt_trans (encodeD_ext d h) (heapExt_append _ _)

theorem encodeL_ext : ∀ (l : List Value) (h : PyHeap), heapExt h (encodeL l h).2
| [], h => heapExt_refl h
| v :: rest, h =>
  heapExt_trans (encodeV_ext v h) (encodeL_ext rest (encodeV v h).2)

theorem encodeD_ext : ∀ (d : List (String × Value)) (h : PyHeap),
    heapExt h (encodeD d h).2
| [], h => heapExt_refl h
| (_, v) :: rest, h =>
  heapExt_trans (encodeV_ext v h) (encodeD_ext rest (encodeV v h).2)

end

theorem decodeV_agree : ∀ (fuel : Nat) (h h' : PyHeap) (v : HVal) (t : Value),
    heapAgree h.length h h' → decodeV fuel h v = some t → decodeV fuel h' v = some t := by
  intro fuel
  induction fuel with
  | zero =>
    intro h h' v t _ e
    cases v with
    | hnone => exact e
    | hint n => exact e
    | hstr s => exact e
    | href a => exact absurd e (by simp [decodeV])
  | succ n ih =>
    intro h h' v t hag e
    cases v with
    | hnone => exact e
    | hint m => exact e
    | hstr s => exact e
    | href a =>
      have auxL : ∀ (l : List HVal) (ts : List Value),
          l.mapM (decodeV n h) = some ts → l.mapM (decodeV n h') = some ts := by
        intro l
        induction l with
        | nil => intro ts e'; exact e'
        | cons x xs ihl =>
          intro ts e'
          simp only [List.mapM_cons, Option.pure_def, Option.bind_eq_bind,
            Option.bind_eq_some] at e' ⊢
          obtain ⟨y, hy, ys, hys, hsome⟩ := e'
          exact ⟨y, ih h h' x y hag hy, ys, ihl ys hys, hsome⟩
      have auxD : ∀ (d : List (String × HVal)) (ts : List (String × Value)),
          d.mapM (fun kv => (decodeV n h kv.2).map (Prod.mk kv.1)) = some ts →
          d.mapM (fun kv => (decodeV n h' kv.2).map (Prod.mk kv.1)) = some ts := by
        intro d
        induction d with
        | nil => intro ts e'; exact e'
        | cons x xs ihd =>
          intro ts e'
          simp only [List.mapM_cons, Option.pure_def, Option.bind_eq_bind,
            Option.bind_eq_some, Option.map_eq_some'] at e' ⊢
          obtain ⟨y, ⟨z, hz, hzy⟩, ys, hys, hsome⟩ := e'
          exact ⟨y, ⟨z, ih h h' x.2 z hag hz, hzy⟩, ys, ihd ys hys, hsome⟩
      have ered : (match h.get? a with
        | some (.hlist l) => (l.mapM (decodeV n h)).map Value.listV
        | some (.hdict d) =>
          (d.mapM (fun kv => (decodeV n h kv.2).map (Prod.mk kv.1))).map Value.dictV
        | Option.none => Option.none) = some t := e
      show (match h'.get? a with
        | some (.hlist l) => (l.mapM (decodeV n h')).map Value.listV
        | some (.hdict d) =>
          (d.mapM (fun kv => (decodeV n h' kv.2).map (Prod.mk kv.1))).map Value.dictV
        | Option.none => Option.none) = some t
      cases hga : h.get? a with
      | none => rw [hga] at ered; simp at ered
      | some o =>
        have ha : a < h.length := by
          by_contra hcon
          rw [List.get?_eq_none.mpr (le_of_not_lt hcon)] at hga
          exact Option.noConfusion hga
        rw [hga] at ered
        rw [← hag a ha, hga]
        cases o with
        | hlist l =>
          have ered2 : (l.mapM (decodeV n h)).map Value.listV = some t := ered
          show (l.mapM (decodeV n h')).map Value.listV = some t
          obtain ⟨ts, hts, rfl⟩ := Option.map_eq_some'.mp ered2
          rw [auxL l ts hts]
          rfl
        | hdict d =>
          have ered2 :
              (d.mapM (fun kv => (decodeV n h kv.2).map (Prod.mk kv.1))).map
                Value.dictV = some t := ered
          show (d.mapM (fun kv => (decodeV n h' kv.2).map (Prod.mk kv.1))).map
                Value.dictV = some t
          obtain ⟨ts, hts, rfl⟩ := Option.map_eq_some'.mp ered2
          rw [auxD d ts hts]
          rfl

theorem heapExt_concat_get (H : PyHeap) (o : HObj) {h'' : PyHeap}
    (hext : heapExt (H ++ [o]) h'') : h''.get? H.length = some o := by
  have hlt : H.length < (H ++ [o]).length := by simp
  rw [← hext.2 H.length hlt]
  exact List.get?_concat_length H o

mutual

theorem decode_encodeV : ∀ (v : Value) (h : PyHeap) (fuel : Nat) (h'' : PyHeap),
    vdepth v ≤ fuel → heapExt (encodeV v h).2 h'' →
    decodeV fuel h'' (encodeV v h).1 = some v
| .noneV, _, fuel, _, _, _ => by cases fuel <;> rfl
| .intV _, _, fuel, _, _, _ => by cases fuel <;> rfl
| .strV _, _, fuel, _, _, _ => by cases fuel <;> rfl
| .listV l, h, fuel, h'', hd, hext => by
  match fuel, hd with
  | fl + 1, hd =>
    have hdl : vdepthL l ≤ fl := by
      have : vdepth (.listV l) = vdepthL l + 1 := rfl
      omega
    have hget : h''.get? (encodeL l h).2.length = some (.hlist (encodeL l h).1) :=
      heapExt_concat_get _ _ hext
    show (match h''.get? (encodeL l h).2.length with
      | some (.hlist l') => (l'.mapM (decodeV fl h'')).map Value.listV
      | some (.hdict d') =>
        (d'.mapM (fun kv => (decodeV fl h'' kv.2).map (Prod.mk kv.1))).map Value.dictV
      | Option.none => Option.none) = some (.listV l)
    rw [hget]
    show ((encodeL l h).1.mapM (decodeV fl h'')).map Value.listV =
      some (Value.listV l)
    have hext2 : heapExt (encodeL l h).2 h'' :=
      heapExt_trans (heapExt_append _ _) hext
    rw [decode_encodeL l h fl h'' hdl hext2]
    rfl
| .dictV d, h, fuel, h'', hd, hext => by
  match fuel, hd with
  | fl + 1, hd =>
    have hdd : vdepthD d ≤ fl := by
      have : vdepth (.dictV d) = vdepthD d + 1 := rfl
      omega
    have hget : h''.get? (encodeD d h).2.length = some (.hdict (encodeD d h).1) :=
      heapExt_concat_get _ _ hext
    show (match h''.get? (encodeD d h).2.length with
      | some (.hlist l') => (l'.mapM (decodeV fl h'')).map Value.listV
      | some (.hdict d') =>
        (d'.mapM (fun kv => (decodeV fl h'' kv.2).map (Prod.mk kv.1))).map Value.dictV
      | Option.none => Option.none) = some (.dictV d)
    rw [hget]
    show ((encodeD d h).1.mapM
        (fun kv => (decodeV fl h'' kv.2).map (Prod.mk kv.1))).map Value.dictV =
      some (Value.dictV d)
    have hext2 : heapExt (encodeD d h).2 h'' :=
      heapExt_trans (heapExt_append _ _) hext
    rw [decode_encodeD d h fl h'' hdd hext2]
    rfl

theorem decode_encodeL : ∀ (l : List Value) (h : PyHeap) (fuel : Nat) (h'' : PyHeap),
    vdepthL l ≤ fuel → heapExt (encodeL l h).2 h'' →
    (encodeL l h).1.mapM (decodeV fuel h'') = some l
| [], _, _, _, _, _ => rfl
| v :: rest, h, fuel, h'', hd, hext => by
  have hdv : vdepth v ≤ fuel := le_trans (le_max_left _ _) hd
  have hdr : vdepthL rest ≤ fuel := le_trans (le_max_right _ _) hd
  have hext1 : heapExt (encodeV v h).2 h'' :=
    heapExt_trans (encodeL_ext rest (encodeV v h).2) hext
  show ((encodeV v h).1 :: (encodeL rest (encodeV v h).2).1).mapM
      (decodeV fuel h'') = some (v :: rest)
  rw [List.mapM_cons]
  rw [decode_encodeV v h fuel h'' hdv hext1]
  rw [decode_encodeL rest (encodeV v h).2 fuel h'' hdr hext]
  rfl

theorem decode_encodeD : ∀ (d : List (String × Value)) (h : PyHeap) (fuel : Nat)
    (h'' : PyHeap), vdepthD d ≤ fuel → heapExt (encodeD d h).2 h'' →
    (encodeD d h).1.mapM (fun kv => (decodeV fuel h'' kv.2).map (Prod.mk kv.1)) =
      some d
| [], _, _, _, _, _ => rfl
| (k, v) :: rest, h, fuel, h'', hd, hext => by
  have hdv : vdepth v ≤ fuel := le_trans (le_max_left _ _) hd
  have hdr : vdepthD rest ≤ fuel := le_trans (le_max_right _ _) hd
  have hext1 : heapExt (encodeV v h).2 h'' :=
    heapExt_trans (encodeD_ext rest (encodeV v h).2) hext
  show ((k, (encodeV v h).1) :: (encodeD rest (encodeV v h).2).1).mapM
      (fun kv => (decodeV fuel h'' kv.2).map (Prod.mk kv.1)) = some ((k, v) :: rest)
  rw [List.mapM_cons]
  simp only []
  rw [decode_encodeV v h fuel h'' hdv hext1]
  rw [decode_encodeD rest (encodeV v h).2 fuel h'' hdr hext]
  rfl

end

/-- Claim C4: accessing a stored example deep-copies it into fresh heap cells,
so mutating the returned mapping (writing cells at or past the old heap
boundary, which is where the whole copy lives) changes neither the source's
stored state nor the result of a subsequent independent access for the same
key. -/
theorem c4_deepcopy_isolation
    (h0 : PyHeap) (root : HVal) (d : List (String × Value)) (k : String)
    (fuel : Nat) (hdec : decodeV fuel h0 root = some (.dictV d)) :
    heapGetByKey h0 root k fuel = some (encodeV (stampedEx d k) h0) ∧
    (∀ a : Nat, (encodeV (stampedEx d k) h0).1 = .href a → h0.length ≤ a) ∧
    (∀ (a : Nat) (o : HObj), h0.length ≤ a →
      heapAgree h0.length (encodeV (stampedEx d k) h0).2
        (writeHeap (encodeV (stampedEx d k) h0).2 a o)) ∧
    (∀ h2 : PyHeap, heapAgree h0.length (encodeV (stampedEx d k) h0).2 h2 →
      decodeV fuel h2 root = some (.dictV d) ∧
      heapGetByKey h2 root k fuel = some (encodeV (stampedEx d k) h2)) ∧
    (∀ (hh : PyHeap) (fl : Nat), vdepth (stampedEx d k) ≤ fl →
      decodeV fl (encodeV (stampedEx d k) hh).2 (encodeV (stampedEx d k) hh).1 =
        some (stampedEx d k)) := by
  have hagree0 : ∀ h2 : PyHeap,
      heapAgree h0.length (encodeV (stampedEx d k) h0).2 h2 →
      heapAgree h0.length h0 h2 := by
    intro h2 hag a ha
    rw [(encodeV_ext (stampedEx d k) h0).2 a ha]
    exact hag a ha
  refine ⟨?_, ?_, ?_, ?_, ?_⟩
  · show (match decodeV fuel h0 root with
      | Option.none => Option.none
      | some body =>
        match setItemV body keys.EXAMPLE_ID (.strV k) with
        | .error _ => Option.none
        | .ok ex => some (encodeV ex h0)) = some (encodeV (stampedEx d k) h0)
    rw [hdec]
    rfl
  · intro a he
    have : (encodeV (stampedEx d k) h0).1 =
        .href (encodeD (dictSet d keys.EXAMPLE_ID (.strV k)) h0).2.length := rfl
    rw [this] at he
    cases he
    exact (encodeD_ext (dictSet d keys.EXAMPLE_ID (.strV k)) h0).1
  · intro a o hle b hb
    exact (List.get?_set_ne o _ (by omega)).symm
  · intro h2 hag
    have hd2 : decodeV fuel h2 root = some (.dictV d) :=
      decodeV_agree fuel h0 h2 root _ (hagree0 h2 hag) hdec
    refine ⟨hd2, ?_⟩
    show (match decodeV fuel h2 root with
      | Option.none => Option.none
      | some body =>
        match setItemV body keys.EXAMPLE_ID (.strV k) with
        | .error _ => Option.none
        | .ok ex => some (encodeV ex h2)) = some (encodeV (stampedEx d k) h2)
    rw [hd2]
    rfl
  · intro hh fl hfl
    exact decode_encodeV (stampedEx d k) hh fl _ hfl (heapExt_refl _)

theorem c4_deepcopy_isolation_witness :
    heapGetByKey c4h0 c4root "x" 2 =
      some (encodeV (stampedEx [("f", .intV 1)] "x") c4h0) ∧
    decodeV 2 c4mut c4root = some (.dictV [("f", .intV 1)]) ∧
    heapGetByKey c4mut c4root "x" 2 =
      some (encodeV (stampedEx [("f", .intV 1)] "x") c4mut) := by
  have T := c4_deepcopy_isolation c4h0 c4root [("f", .intV 1)] "x" 2 rfl
  have hag : heapAgree c4h0.length
      (encodeV (stampedEx [("f", .intV 1)] "x") c4h0).2 c4mut :=
    T.2.2.1 1 (.hdict [("f", .hint 999)]) (by decide)
  exact ⟨T.1, (T.2.2.2.1 c4mut hag).1, (T.2.2.2.1 c4mut hag).2⟩

theorem contains_eq_lookup_isSome (exs : List (String × Value)) (k : String) :
    (exKeys exs).contains k = (List.lookup k exs).isSome := by
  induction exs with
  | nil => rfl
  | cons kv rest ih =>
    simp only [exKeys, List.map_cons, List.contains_cons, List.lookup] at *
    by_cases hkk : k = kv.1
    · subst hkk
      simp
    · have h2 : (k == kv.1) = false := by simp [hkk]
      rw [h2]
      simpa [exKeys] using ih

theorem dictGet_dictSet (d : List (String × Value)) (k : String) (v : Value) :
    List.lookup k (dictSet d k v) = some v := by
  induction d with
  | nil => simp [dictSet, List.lookup]
  | cons kv rest ih =>
    by_cases hkk : kv.1 = k
    · simp [dictSet, hkk, List.lookup]
    · have h1 : (kv.1 == k) = false := by simp [hkk]
      have h2 : (k == kv.1) = false := by simp [Ne.symm hkk]
      cases kv with
      | mk k' v' =>
        simp only at h1 h2
        simp only [dictSet, h1, Bool.false_eq_true, if_false, List.lookup, h2]
        exact ih

/-- Claim C1 (code bug): concatenating the disjoint sources owning keys a,b
and c gives length 3 and keys a,b,c as claimed, and the second upstream can
itself serve key c; but `get_by_key` on the concatenation raises `IndexError`
for c instead of returning the stored example, because `ChainMap` swallows
only `KeyError` while `ExamplesIterator` signals a missing string key with
`IndexError`, so the lookup never reaches any upstream past the first. -/
theorem c1_concatenate_get_by_key :
    lenF c1cat = .ok 3 ∧
    keysF c1cat = .ok (.listV [.strV "a", .strV "b", .strV "c"]) ∧
    getStr c1srcC "c" =
      .ok (.dictV [("v", .intV 3), (keys.EXAMPLE_ID, .strV "c")]) ∧
    getStr c1cat "c" = .error .indexError :=
  ⟨rfl, rfl, rfl, rfl⟩

/-- Claim C3 (code bug): positional access on the concatenation walks the
upstreams in order with residual offsets (positions 0 and 2 reach the first
and second upstream), but a position at or past the total length 3 makes
`ConcatenateIterator.__getitem__` fall off its loop and return `None`
instead of raising an error. -/
theorem c3_concatenate_position_overflow :
    getInt c1cat 0 = .ok (.dictV [("v", .intV 1), (keys.EXAMPLE_ID, .strV "a")]) ∧
    getInt c1cat 2 = .ok (.dictV [("v", .intV 3), (keys.EXAMPLE_ID, .strV "c")]) ∧
    getInt c1cat 3 = .ok .noneV ∧
    getInt c1cat 5 = .ok .noneV :=
  ⟨rfl, rfl, rfl, rfl⟩

/-- Claim C2 (code bug): a Slice view with resolved positions [0,1] over a
3-example source has the claimed length 2 and working positional access, but
`keys()` raises `TypeError` (the upstream key list — a Python list — is
indexed with a numpy index array of size 2), and `get_by_key` calls `keys()`
first, so it raises `TypeError` as well, even for a key inside the selected
subset. -/
theorem c2_slice_keys_typeerror :
    lenF c2slice = .ok 2 ∧
    getInt c2slice 0 =
      .ok (.dictV [("v", .intV 1), (keys.EXAMPLE_ID, .strV "a")]) ∧
    getInt c2slice 1 =
      .ok (.dictV [("v", .intV 2), (keys.EXAMPLE_ID, .strV "b")]) ∧
    keysF c2slice = .error .typeError ∧
    getStr c2slice "a" = .error .typeError :=
  ⟨rfl, rfl, rfl, rfl, rfl⟩

/-- Claim C5: an Example Source built on a mapping with unique ids reports its
size as length, lists its keys distinct and in stored order, and
`get_by_key(k)` returns the stored body with the reserved id field set to
`k`, so that looking the id field up in the result gives back `k`. -/
theorem c5_examples_source
    (exs : List (String × Value)) (k : String) (d : List (String × Value))
    (hnd : (exKeys exs).Nodup)
    (hk : List.lookup k exs = some (.dictV d)) :
    lenF (.ExamplesIterator exs) = .ok exs.length ∧
    keysF (.ExamplesIterator exs) = .ok (.listV ((exKeys exs).map .strV)) ∧
    ((exKeys exs).map Value.strV).Nodup ∧
    getStr (.ExamplesIterator exs) k = .ok (stampedEx d k) ∧
    dictGet (dictSet d keys.EXAMPLE_ID (.strV k)) keys.EXAMPLE_ID =
      some (.strV k) := by
  have hcont : (exKeys exs).contains k = true := by
    rw [contains_eq_lookup_isSome, hk]
    rfl
  refine ⟨rfl, rfl, ?_, ?_, ?_⟩
  · exact hnd.map (fun a b h => Value.strV.inj h)
  · show (if (exKeys exs).contains k then exGet exs k
      else .error .indexError) = .ok (stampedEx d k)
    rw [hcont]
    show exGet exs k = .ok (stampedEx d k)
    unfold exGet
    rw [hk]
    rfl
  · exact dictGet_dictSet d keys.EXAMPLE_ID (.strV k)

theorem c5_examples_source_witness :
    getStr (.ExamplesIterator [("a", .dictV [("v", .intV 7)]),
        ("b", .dictV [("v", .intV 8)])]) "a" =
      .ok (.dictV [("v", .intV 7), (keys.EXAMPLE_ID, .strV "a")]) ∧
    lenF (.ExamplesIterator [("a", .dictV [("v", .intV 7)]),
        ("b", .dictV [("v", .intV 8)])]) = .ok 2 := by
  have T := c5_examples_source
    [("a", .dictV [("v", .intV 7)]), ("b", .dictV [("v", .intV 8)])]
    "a" [("v", .intV 7)] (by decide) rfl
  exact ⟨T.2.2.2.1, T.1⟩

/-- Claim C6: on a Filter view, `length()` raises `NotImplementedError` and
positional `__getitem__` fails its string-only assertion, for every upstream
and every input; `get_by_key(k)` over an Example Source upstream succeeds
exactly when `k` is one of the upstream's keys and the predicate holds of
the upstream's example for `k`, and raises `IndexError` otherwise. -/
theorem c6_filter_view
    (p : Value → Bool) (u : Iterator) (i : Int)
    (exs : List (String × Value)) (k : String) :
    lenF (.FilterIterator p u) = .error .notImplementedError ∧
    getInt (.FilterIterator p u) i = .error .assertionError ∧
    (List.lookup k exs = Option.none →
      getStr (.FilterIterator p (.ExamplesIterator exs)) k =
        .error .indexError) ∧
    (∀ d : List (String × Value), List.lookup k exs = some (.dictV d) →
      getStr (.FilterIterator p (.ExamplesIterator exs)) k =
        (if p (stampedEx d k) then .ok (stampedEx d k)
         else .error .indexError)) := by
  refine ⟨rfl, rfl, ?_, ?_⟩
  · intro hnone
    have hcont : (exKeys exs).contains k = false := by
      rw [contains_eq_lookup_isSome, hnone]
      rfl
    show (do
      let ex ← getStr (.ExamplesIterator exs) k
      if p ex then Except.ok ex else Except.error Err.indexError) =
        Except.error Err.indexError
    have hup : getStr (.ExamplesIterator exs) k = .error .indexError := by
      show (if (exKeys exs).contains k then exGet exs k
        else .error .indexError) = .error .indexError
      rw [hcont]
      rfl
    rw [hup]
    rfl
  · intro d hd
    have hcont : (exKeys exs).contains k = true := by
      rw [contains_eq_lookup_isSome, hd]
      rfl
    have hup : getStr (.ExamplesIterator exs) k = .ok (stampedEx d k) := by
      show (if (exKeys exs).contains k then exGet exs k
        else .error .indexError) = .ok (stampedEx d k)
      rw [hcont]
      show exGet exs k = .ok (stampedEx d k)
      unfold exGet
      rw [hd]
      rfl
    show (do
      let ex ← getStr (.ExamplesIterator exs) k
      if p ex then Except.ok ex else Except.error Err.indexError) =
        (if p (stampedEx d k) then .ok (stampedEx d k)
         else .error .indexError)
    rw [hup]
    rfl

theorem c6_filter_view_witness :
    lenF (.FilterIterator predTrue (.ExamplesIterator [("a", .dictV [])])) =
      .error .notImplementedError ∧
    getStr (.FilterIterator predTrue (.ExamplesIterator [("a", .dictV [])]))
      "b" = .error .indexError ∧
    getStr (.FilterIterator predTrue (.ExamplesIterator [("a", .dictV [])]))
      "a" = .ok (stampedEx [] "a") ∧
    getStr (.FilterIterator predFalse (.ExamplesIterator [("a", .dictV [])]))
      "a" = .error .indexError := by
  have T1 := c6_filter_view predTrue (.ExamplesIterator [("a", .dictV [])])
    0 [("a", .dictV [])] "b"
  have T2 := c6_filter_view predTrue (.ExamplesIterator [("a", .dictV [])])
    0 [("a", .dictV [])] "a"
  have T3 := c6_filter_view predFalse (.ExamplesIterator [("a", .dictV [])])
    0 [("a", .dictV [])] "a"
  exact ⟨T1.1, T1.2.2.1 rfl, T2.2.2.2 [] rfl, T3.2.2.2 [] rfl⟩

theorem pyIndex_natCast {α : Type} (l : List α) (j : Nat) (h : j < l.length) :
    pyIndex l (j : Int) = l.get? j := by
  have h0 : ¬((j : Int) < 0) := not_lt.mpr (Int.natCast_nonneg j)
  have hc : ((j : Int) < (l.length : Int)) := by exact_mod_cast h
  simp [pyIndex, h0, hc, Int.natCast_nonneg]

/-- Claim C7: a static Shuffle view built from a permutation of `[0, n)` over
an upstream of length `n` delegates `keys()` and `get_by_key` unchanged to
the upstream; one `iterate()` pass yields the upstream examples in the
stored permutation order without changing any state or consuming randomness,
so a second `iterate()` yields the identical order; and positional access
maps positions through the stored permutation, whose entries are exactly
`[0, n)` without repetition (a bijection onto the upstream positions). -/
theorem c7_static_shuffle
    (perm : List Nat) (n : Nat) (u : Iterator)
    (hp : perm.Perm (List.range n)) :
    keysF (.ShuffleIterator perm u) = keysF u ∧
    (∀ k : String, getStr (.ShuffleIterator perm u) k = getStr u k) ∧
    (∀ (orc : Nat → List Nat → List Nat) (c : Nat),
      iterOnce orc (.ShuffleIterator perm u) c =
        (perm.mapM (fun j => getInt u (j : Int)),
         .ShuffleIterator perm u, c)) ∧
    (∀ (orc : Nat → List Nat → List Nat) (c : Nat),
      (iterOnce orc (.ShuffleIterator perm u) c).1 =
        (iterOnce orc ((iterOnce orc (.ShuffleIterator perm u) c).2.1)
          ((iterOnce orc (.ShuffleIterator perm u) c).2.2)).1) ∧
    perm.Nodup ∧
    (∀ m : Nat, m ∈ perm ↔ m < n) ∧
    (∀ j : Nat, j < n → ∃ m : Nat,
      pyIndex perm (j : Int) = some m ∧ m < n ∧
      getInt (.ShuffleIterator perm u) (j : Int) = getInt u (m : Int)) := by
  have hlen : perm.length = n := by simpa using hp.length_eq
  have hmem : ∀ m : Nat, m ∈ perm ↔ m < n := by
    intro m
    rw [hp.mem_iff, List.mem_range]
  refine ⟨rfl, fun _ => rfl, fun _ _ => rfl, fun _ _ => rfl,
    hp.nodup_iff.mpr (List.nodup_range n), hmem, ?_⟩
  intro j hj
  have hjl : j < perm.length := hlen ▸ hj
  have hpy : pyIndex perm (j : Int) = some (perm.get ⟨j, hjl⟩) := by
    rw [pyIndex_natCast perm j hjl]
    exact List.get?_eq_get hjl
  refine ⟨perm.get ⟨j, hjl⟩, hpy, (hmem _).mp (List.get_mem perm j hjl), ?_⟩
  show (match pyIndex perm (j : Int) with
    | some m => getInt u (m : Int)
    | Option.none => Except.error Err.indexError) = _
  rw [hpy]

theorem c7_static_shuffle_witness :
    getStr (.ShuffleIterator [1, 0]
      (.ExamplesIterator [("a", .dictV []), ("b", .dictV [])])) "b" =
      getStr (.ExamplesIterator [("a", .dictV []), ("b", .dictV [])]) "b" ∧
    ([1, 0] : List Nat).Nodup ∧
    (∃ m : Nat, pyIndex [1, 0] (0 : Int) = some m ∧ m < 2 ∧
      getInt (.ShuffleIterator [1, 0]
        (.ExamplesIterator [("a", .dictV []), ("b", .dictV [])])) (0 : Int) =
      getInt (.ExamplesIterator [("a", .dictV []), ("b", .dictV [])])
        (m : Int)) := by
  have T := c7_static_shuffle [1, 0] 2
    (.ExamplesIterator [("a", .dictV []), ("b", .dictV [])]) (by decide)
  exact ⟨T.2.1 "b", T.2.2.2.2.1, T.2.2.2.2.2.2 0 (by decide)⟩

theorem listNodupV_map_strV (l : List String) :
    listNodupV (l.map .strV) = true ↔ l.Nodup := by
  induction l with
  | nil => simp [listNodupV]
  | cons a rest ih =>
    show (!(List.any (rest.map .strV) (vbeq (.strV a))) &&
      listNodupV (rest.map .strV)) = true ↔ (a :: rest).Nodup
    have hany : (rest.map Value.strV).any (vbeq (.strV a)) = true ↔ a ∈ rest := by
      rw [List.any_eq_true]
      constructor
      · rintro ⟨x, hx, hvb⟩
        obtain ⟨b, hb, rfl⟩ := List.mem_map.mp hx
        have h' : (a == b) = true := hvb
        exact (eq_of_beq h') ▸ hb
      · intro hmem
        refine ⟨.strV a, List.mem_map_of_mem _ hmem, ?_⟩
        show (a == a) = true
        simp
    rw [List.nodup_cons, Bool.and_eq_true, Bool.not_eq_true', ← ih]
    constructor
    · rintro ⟨hf, ht⟩
      refine ⟨fun hmem => ?_, ht⟩
      rw [hany.mpr hmem] at hf
      cases hf
    · rintro ⟨hnm, ht⟩
      refine ⟨?_, ht⟩
      cases hcases : (rest.map Value.strV).any (vbeq (.strV a)) with
      | false => rfl
      | true => exact absurd (hany.mp hcases) hnm

theorem keysF_concat_two (e1 e2 : List (String × Value)) :
    keysF (.ConcatenateIterator [.ExamplesIterator e1, .ExamplesIterator e2]) =
      (if listNodupV ((exKeys e1 ++ exKeys e2).map .strV)
       then .ok (.listV ((exKeys e1 ++ exKeys e2).map .strV))
       else .error .assertionError) := by
  have h1 : keysFList [.ExamplesIterator e1, .ExamplesIterator e2] =
      .ok ((exKeys e1).map .strV ++ ((exKeys e2).map .strV ++ [])) := rfl
  show (do
    let l ← keysFList [.ExamplesIterator e1, .ExamplesIterator e2]
    if listNodupV l then Except.ok (Value.listV l)
    else Except.error Err.assertionError) = _
  rw [h1, List.append_nil, ← List.map_append]
  rfl

/-- Claim C8: a Concatenate view of two Example Sources never fails at
construction (building the view is total in the model) nor on positional
access — in-range positions delegate to the owning upstream even when key
sets overlap — while `keys()` and any `get_by_key` raise the duplicate-key
assertion exactly when the key sets overlap; with disjoint key sets `keys()`
is the concatenation of the upstream key sequences. -/
theorem c8_concatenate_duplicate_keys
    (e1 e2 : List (String × Value)) :
    (∀ k : String, k ∈ exKeys e1 → k ∈ exKeys e2 →
      keysF (.ConcatenateIterator [.ExamplesIterator e1, .ExamplesIterator e2]) =
        .error .assertionError) ∧
    (∀ k k' : String, k ∈ exKeys e1 → k ∈ exKeys e2 →
      getStr (.ConcatenateIterator [.ExamplesIterator e1, .ExamplesIterator e2])
        k' = .error .assertionError) ∧
    (∀ i : Int, 0 ≤ i → i < (e1.length : Int) →
      getInt (.ConcatenateIterator [.ExamplesIterator e1, .ExamplesIterator e2])
        i = getInt (.ExamplesIterator e1) i) ∧
    (∀ i : Int, (e1.length : Int) ≤ i →
        i < (e1.length : Int) + (e2.length : Int) →
      getInt (.ConcatenateIterator [.ExamplesIterator e1, .ExamplesIterator e2])
        i = getInt (.ExamplesIterator e2) (i - e1.length)) ∧
    ((exKeys e1 ++ exKeys e2).Nodup →
      keysF (.ConcatenateIterator [.ExamplesIterator e1, .ExamplesIterator e2]) =
        .ok (.listV ((exKeys e1 ++ exKeys e2).map .strV))) := by
  have hdup : ∀ k : String, k ∈ exKeys e1 → k ∈ exKeys e2 →
      keysF (.ConcatenateIterator [.ExamplesIterator e1, .ExamplesIterator e2]) =
        .error .assertionError := by
    intro k h1 h2
    rw [keysF_concat_two]
    have hnotnd : ¬(exKeys e1 ++ exKeys e2).Nodup := by
      intro hnd
      exact (List.disjoint_of_nodup_append hnd) h1 h2
    have hfalse : listNodupV ((exKeys e1 ++ exKeys e2).map .strV) = false := by
      rw [← Bool.not_eq_true]
      intro htrue
      exact hnotnd ((listNodupV_map_strV _).mp htrue)
    rw [hfalse]
    rfl
  refine ⟨hdup, ?_, ?_, ?_, ?_⟩
  · intro k k' h1 h2
    show (do
      let _ ← keysF (.ConcatenateIterator
        [.ExamplesIterator e1, .ExamplesIterator e2])
      chainLookup [.ExamplesIterator e1, .ExamplesIterator e2] k') =
        Except.error Err.assertionError
    rw [hdup k h1 h2]
    rfl
  · intro i h0 hlt
    show (do
      let n ← lenF (.ExamplesIterator e1)
      if (n : Int) ≤ i then concatWalk [.ExamplesIterator e2] (i - n)
      else getInt (.ExamplesIterator e1) i) = getInt (.ExamplesIterator e1) i
    show (if (e1.length : Int) ≤ i then
        concatWalk [.ExamplesIterator e2] (i - e1.length)
      else getInt (.ExamplesIterator e1) i) = getInt (.ExamplesIterator e1) i
    rw [if_neg (by omega)]
  · intro i hge hlt
    show (if (e1.length : Int) ≤ i then
        concatWalk [.ExamplesIterator e2] (i - e1.length)
      else getInt (.ExamplesIterator e1) i) =
        getInt (.ExamplesIterator e2) (i - e1.length)
    rw [if_pos hge]
    show (if (e2.length : Int) ≤ i - e1.length then
        concatWalk [] (i - e1.length - e2.length)
      else getInt (.ExamplesIterator e2) (i - e1.length)) =
        getInt (.ExamplesIterator e2) (i - e1.length)
    rw [if_neg (by omega)]
  · intro hnd
    rw [keysF_concat_two, if_pos ((listNodupV_map_strV _).mpr hnd)]

theorem c8_concatenate_duplicate_keys_witness :
    keysF (.ConcatenateIterator
      [.ExamplesIterator [("a", .dictV []), ("b", .dictV [])],
       .ExamplesIterator [("a", .dictV [])]]) = .error .assertionError ∧
    getStr (.ConcatenateIterator
      [.ExamplesIterator [("a", .dictV []), ("b", .dictV [])],
       .ExamplesIterator [("a", .dictV [])]]) "a" = .error .assertionError ∧
    getInt (.ConcatenateIterator
      [.ExamplesIterator [("a", .dictV []), ("b", .dictV [])],
       .ExamplesIterator [("a", .dictV [])]]) 2 =
      getInt (.ExamplesIterator [("a", .dictV [])]) 0 ∧
    keysF (.ConcatenateIterator
      [.ExamplesIterator [("a", .dictV []), ("b", .dictV [])],
       .ExamplesIterator [("c", .dictV [])]]) =
      .ok (.listV [.strV "a", .strV "b", .strV "c"]) := by
  have T := c8_concatenate_duplicate_keys
    [("a", .dictV []), ("b", .dictV [])] [("a", .dictV [])]
  have U := c8_concatenate_duplicate_keys
    [("a", .dictV []), ("b", .dictV [])] [("c", .dictV [])]
  refine ⟨T.1 "a" (by decide) (by decide), T.2.1 "a" "a" (by decide) (by decide),
    ?_, U.2.2.2.2 (by decide)⟩
  have h := T.2.2.2.1 2 (by decide) (by decide)
  simpa using h

/-- Claim C9: the alignment-validity predicate rejects every example lacking
a non-empty alignment, accepts unconditionally an example with a non-empty
alignment but no sample count, and with an integer sample count `n` accepts
exactly when the alignment length equals `floor((n - 240)/160)` or that
value's low-frame-rate reduction `(num_frames + (-num_frames mod 3)) / 3`;
in particular a 10-element alignment with `n = 1840` is accepted. -/
theorem c9_alignment_validity (ex : List (String × Value)) :
    (List.lookup keys.ALIGNMENT ex = Option.none →
      remove_examples_without_alignment ex = .ok false) ∧
    (∀ ali : Value, List.lookup keys.ALIGNMENT ex = some ali →
      valueLen ali = some 0 →
      remove_examples_without_alignment ex = .ok false) ∧
    (∀ (ali : Value) (la : Nat), List.lookup keys.ALIGNMENT ex = some ali →
      valueLen ali = some la → 0 < la →
      List.lookup keys.NUM_SAMPLES ex = Option.none →
      remove_examples_without_alignment ex = .ok true) ∧
    (∀ (ali : Value) (la : Nat) (n : Int),
      List.lookup keys.ALIGNMENT ex = some ali →
      valueLen ali = some la → 0 < la →
      List.lookup keys.NUM_SAMPLES ex = some (.intV n) →
      remove_examples_without_alignment ex =
        .ok (((la : Int) == Int.fdiv (n - 240) 160) ||
             ((la : Int) == Int.fdiv (Int.fdiv (n - 240) 160 +
                Int.emod (-(Int.fdiv (n - 240) 160)) 3) 3))) ∧
    remove_examples_without_alignment
      [(keys.ALIGNMENT, .listV (List.replicate 10 (.intV 1))),
       (keys.NUM_SAMPLES, .intV 1840)] = .ok true := by
  refine ⟨?_, ?_, ?_, ?_, rfl⟩
  · intro h
    unfold remove_examples_without_alignment
    rw [h]
  · intro ali h1 h2
    unfold remove_examples_without_alignment
    rw [h1]
    dsimp only
    rw [h2]
    rfl
  · intro ali la h1 h2 h3 h4
    unfold remove_examples_without_alignment
    rw [h1]
    dsimp only
    rw [h2]
    dsimp only
    rw [if_neg (by omega), h4]
  · intro ali la n h1 h2 h3 h4
    unfold remove_examples_without_alignment
    rw [h1]
    dsimp only
    rw [h2]
    dsimp only
    rw [if_neg (by omega), h4]
    dsimp only
    have harith : n - 400 + 160 = n - 240 := by ring
    show Except.ok (((la : Int) == (n - 400 + 160).fdiv 160) ||
      ((la : Int) == (((n - 400 + 160).fdiv 160) +
        Int.emod (-((n - 400 + 160).fdiv 160)) 3).fdiv 3)) = _
    rw [harith]

theorem c9_alignment_validity_witness :
    remove_examples_without_alignment
      [(keys.ALIGNMENT, .listV (List.replicate 10 (.intV 1))),
       (keys.NUM_SAMPLES, .intV 1840)] = .ok true ∧
    remove_examples_without_alignment [("other", .intV 5)] = .ok false ∧
    remove_examples_without_alignment
      [(keys.ALIGNMENT, .listV (List.replicate 7 (.intV 1))),
       (keys.NUM_SAMPLES, .intV 1840)] =
      .ok (((7 : Int) == Int.fdiv (1840 - 240) 160) ||
           ((7 : Int) == Int.fdiv (Int.fdiv (1840 - 240) 160 +
              Int.emod (-(Int.fdiv (1840 - 240) 160)) 3) 3)) := by
  refine ⟨(c9_alignment_validity
      [(keys.ALIGNMENT, .listV (List.replicate 10 (.intV 1))),
       (keys.NUM_SAMPLES, .intV 1840)]).2.2.2.2,
    (c9_alignment_validity [("other", .intV 5)]).1 rfl,
    (c9_alignment_validity
      [(keys.ALIGNMENT, .listV (List.replicate 7 (.intV 1))),
       (keys.NUM_SAMPLES, .intV 1840)]).2.2.2.1
      (.listV (List.replicate 7 (.intV 1))) 7 1840 rfl rfl (by omega) rfl⟩

/-- Claim C10: Map views, static Shuffle views and reshuffling Shuffle views
return `keys()` as exactly the upstream key sequence (same content and
order); a static Shuffle iterates in its stored permutation order, so its
`keys()` order (the upstream order) differs from its iteration order (the
two yielded sequences compare unequal under Python ==), while both
enumerate the same examples. -/
theorem c10_keys_delegation :
    (∀ (f : Value → Value) (u : Iterator), keysF (.MapIterator f u) = keysF u) ∧
    (∀ (perm : List Nat) (u : Iterator),
      keysF (.ShuffleIterator perm u) = keysF u) ∧
    (∀ (perm : List Nat) (u : Iterator),
      keysF (.ReShuffleIterator perm u) = keysF u) ∧
    (∀ (orc : Nat → List Nat → List Nat) (perm : List Nat) (u : Iterator)
      (c : Nat), (iterOnce orc (.ShuffleIterator perm u) c).1 =
        perm.mapM (fun j => getInt u (j : Int))) ∧
    keysF (.ShuffleIterator [1, 0] c10src) =
      .ok (.listV [.strV "a", .strV "b"]) ∧
    (iterOnce orcId (.ShuffleIterator [1, 0] c10src) 0).1 =
      .ok [.dictV [(keys.EXAMPLE_ID, .strV "b")],
           .dictV [(keys.EXAMPLE_ID, .strV "a")]] ∧
    (iterOnce orcId c10src 0).1 =
      .ok [.dictV [(keys.EXAMPLE_ID, .strV "a")],
           .dictV [(keys.EXAMPLE_ID, .strV "b")]] ∧
    vbeqL [.dictV [(keys.EXAMPLE_ID, .strV "b")],
           .dictV [(keys.EXAMPLE_ID, .strV "a")]]
          [.dictV [(keys.EXAMPLE_ID, .strV "a")],
           .dictV [(keys.EXAMPLE_ID, .strV "b")]] = false :=
  ⟨fun _ _ => rfl, fun _ _ => rfl, fun _ _ => rfl, fun _ _ _ _ => rfl,
    rfl, rfl, rfl, rfl⟩
